import Mathlib

/-!
Verification of the 4D realignment engine (`realign4d.py`): a shallow embedding of
the `TimeSeries` slice-timing model, the `Realign4d` motion-estimation engine and
the multi-run `realign4d` composer, over exact rational arithmetic.  External
collaborators (the cubic B-spline sampler, the `slice_time` routine, the rigid
transform parameterization and the scipy minimizers) are abstracted as function
parameters, or modelled from the specification where noted.
-/

/-- A 4x4 homogeneous affine matrix over the rationals, standing for the
voxel-to-world maps and rigid transforms of the engine. -/
abbrev M4 := Matrix (Fin 4) (Fin 4) ℚ

/-- Modelled from the spec: `np.linalg.inv`, the external matrix-inverse routine used
to cache the inverse voxel-to-world map (`self.fromworld`).  For an invertible input
it agrees with the true matrix inverse. -/
def matInv (A : M4) : M4 := A.det⁻¹ • A.adjugate

lemma matInv_eq_inv (A : M4) : matInv A = A⁻¹ := by
  rw [Matrix.inv_def, Ring.inverse_eq_inv']
  rfl

lemma matInv_mul_self (A : M4) (h : IsUnit A.det) : matInv A * A = 1 := by
  rw [matInv_eq_inv]
  exact Matrix.nonsing_inv_mul A h

/-- Homogeneous coordinate of a 3-point: the first three components are the point,
the fourth is 1. -/
def homogCoord (p : Fin 3 → ℚ) (j : Fin 4) : ℚ :=
  if h : (j : ℕ) < 3 then p ⟨j, h⟩ else 1

/-- Modelled from the spec: the external `apply_affine` collaborator of the rigid
transform module (spec section 1: "application to point sets"), applying a 4x4
homogeneous affine matrix to a 3-coordinate point. -/
def apply_affine (T : M4) (p : Fin 3 → ℚ) : Fin 3 → ℚ :=
  fun i => ∑ j : Fin 4, T i.castSucc j * homogCoord p j

lemma apply_affine_one (p : Fin 3 → ℚ) : apply_affine 1 p = p := by
  funext i
  simp only [apply_affine, Matrix.one_apply, ite_mul, one_mul, zero_mul,
    Finset.sum_ite_eq, Finset.mem_univ, if_true]
  simp only [homogCoord, Fin.coe_castSucc, i.isLt, dif_pos]

/-- A 4-dimensional scalar array (`x`, `y`, `z`, `t`), as a shape plus a total
valuation function. -/
structure Arr4 where
  d0 : ℕ
  d1 : ℕ
  d2 : ℕ
  d3 : ℕ
  val : ℕ → ℕ → ℕ → ℕ → ℚ

instance : Inhabited Arr4 := ⟨⟨0, 0, 0, 0, fun _ _ _ _ => 0⟩⟩

/-- The numpy `array.shape[i]` accessor. -/
def Arr4.shape (a : Arr4) (i : ℕ) : ℕ :=
  match i with
  | 0 => a.d0
  | 1 => a.d1
  | 2 => a.d2
  | _ => a.d3

/-- The type of the external `slice_time` routine (imported from `routines` in the
source): slice position, inter-slice repetition time, slice order to time offset. -/
abbrev SliceTimeFn := ℚ → ℚ → List ℕ → ℚ

/-- The type of the interpolant produced by the external cubic B-spline collaborator:
`cspline_transform` turns an `Arr4` into spline coefficients and `cspline_sample4d`
samples them at fractional coordinates; we represent the coefficient object by the
sampling function (x, y, z, t) it induces. -/
abbrev SampleFn := ℚ → ℚ → ℚ → ℚ → ℚ

/-- The `TimeSeries` class of `realign4d.py`: a 4D array together with its
voxel-to-world map and the acquisition timing parameters. -/
structure TimeSeries where
  array : Arr4
  toworld : M4
  nslices : ℕ
  tr : ℚ
  tr_slices : ℚ
  start : ℚ
  slice_order : List ℕ
  reversed_slices : Bool

instance : Inhabited TimeSeries :=
  ⟨⟨default, 1, 0, 0, 0, 0, [], false⟩⟩

/-- The interleaved slice-order block of `TimeSeries.__init__`: `p = nslices/2`
(integer division), then `aux = [0, p, 1, p+1, ...]`, appending the last slice when
`nslices` is odd. -/
def interAux (nslices : ℕ) : List ℕ :=
  let p := nslices / 2
  let aux := (List.range p).foldl (fun acc i => acc ++ [i, p + i]) []
  if nslices % 2 ≠ 0 then aux ++ [nslices - 1] else aux

/-- The slice-order construction of `TimeSeries.__init__`: an explicit list is kept
as-is; a named policy builds `range nslices` (or the interleaved order), reversed
when the policy string is `descending`. -/
def buildSliceOrder (nslices : ℕ) (slice_order : String ⊕ List ℕ)
    (interleaved : Bool) : List ℕ :=
  match slice_order with
  | Sum.inr explicit => explicit
  | Sum.inl policy =>
      let aux : List ℕ := if !interleaved then List.range nslices else interAux nslices
      if policy = "descending" then aux.reverse else aux

/-- The `TimeSeries.__init__` constructor: defaults `tr_slices` to `tr/nslices`,
and builds the slice order from a named policy (ascending/descending, optionally
interleaved) when it is given as a string. -/
def TimeSeries.init (array : Arr4) (toworld : M4) (tr : ℚ) (tr_slices : Option ℚ)
    (start : ℚ) (slice_axis : ℕ) (reversed_slices : Bool)
    (slice_order : String ⊕ List ℕ) (interleaved : Bool) : TimeSeries :=
  let nslices := array.shape slice_axis
  let trs : ℚ :=
    match tr_slices with
    | none => tr / (nslices : ℚ)
    | some v => v
  let order : List ℕ := buildSliceOrder nslices slice_order interleaved
  { array := array, toworld := toworld, nslices := nslices, tr := tr,
    tr_slices := trs, start := start, slice_order := order,
    reversed_slices := reversed_slices }

/-- The `TimeSeries.z_to_slice` method: accounts for slices stored in reverse order. -/
def TimeSeries.z_to_slice (ts : TimeSeries) (z : ℚ) : ℚ :=
  if ts.reversed_slices then (ts.nslices : ℚ) - 1 - z else z

/-- The `TimeSeries.totime` method: grid coordinates to physical acquisition time. -/
def TimeSeries.totime (st : SliceTimeFn) (ts : TimeSeries) (z t : ℚ) : ℚ :=
  ts.start + ts.tr * t + st (ts.z_to_slice z) ts.tr_slices ts.slice_order

/-- The `TimeSeries.fromtime` method: physical acquisition time to grid time. -/
def TimeSeries.fromtime (st : SliceTimeFn) (ts : TimeSeries) (z t : ℚ) : ℚ :=
  (t - ts.start - st (ts.z_to_slice z) ts.tr_slices ts.slice_order) / ts.tr

/- Slice-order permutation development (claim C6). -/

lemma foldl_extend_eq_flatMap (p : ℕ) (l : List ℕ) (acc : List ℕ) :
    l.foldl (fun acc i => acc ++ [i, p + i]) acc = acc ++ l.flatMap (fun i => [i, p + i]) := by
  induction l generalizing acc with
  | nil => simp
  | cons a l ih => simp [ih, List.flatMap_cons]

lemma interleaved_flatMap_perm (p : ℕ) :
    ((List.range p).flatMap (fun i => [i, p + i])).Perm (List.range (p + p)) := by
  have h1 := List.flatMap_append_perm (List.range p) (fun i => [i]) (fun i => [p + i])
  have h2 : (List.range p).flatMap (fun i => [i]) = List.range p := by
    rw [← List.map_eq_flatMap]
    simp
  have h3 : (List.range p).flatMap (fun i => [p + i]) = (List.range p).map (fun i => p + i) :=
    (List.map_eq_flatMap _ _).symm
  have h4 : List.range (p + p) = List.range p ++ (List.range p).map (fun i => p + i) :=
    List.range_add p p
  have h1' : ((List.range p).flatMap (fun i => [i, p + i])).Perm
      ((List.range p).flatMap (fun i => [i]) ++ (List.range p).flatMap (fun i => [p + i])) := by
    refine List.Perm.symm ?_
    simpa using h1
  rw [h4]
  refine h1'.trans ?_
  rw [h2, h3]

lemma interAux_perm (n : ℕ) : (interAux n).Perm (List.range n) := by
  rcases Nat.mod_two_eq_zero_or_one n with h | h
  · have hn : n / 2 + n / 2 = n := by omega
    unfold interAux
    rw [if_neg (by omega)]
    rw [foldl_extend_eq_flatMap, List.nil_append]
    conv_rhs => rw [← hn]
    exact interleaved_flatMap_perm (n / 2)
  · have hn : n / 2 + n / 2 + 1 = n := by omega
    have hn1 : n - 1 = n / 2 + n / 2 := by omega
    unfold interAux
    rw [if_pos (by omega)]
    rw [foldl_extend_eq_flatMap, List.nil_append, hn1]
    conv_rhs => rw [← hn, List.range_succ]
    exact (interleaved_flatMap_perm (n / 2)).append_right [n / 2 + n / 2]

/-- C6: for every `nslices >= 1` and every named slice-order policy
({ascending, descending} x {interleaved: yes/no}), the acquisition-order sequence
built by `TimeSeries.init` is a permutation of `0..nslices-1`. -/
theorem slice_order_is_permutation (array : Arr4) (toworld : M4) (tr : ℚ)
    (tr_slices : Option ℚ) (start : ℚ) (slice_axis : ℕ) (reversed_slices : Bool)
    (policy : String) (interleaved : Bool)
    (hpolicy : policy = "ascending" ∨ policy = "descending")
    (hn : 1 ≤ array.shape slice_axis) :
    (TimeSeries.init array toworld tr tr_slices start slice_axis reversed_slices
        (Sum.inl policy) interleaved).slice_order.Perm
      (List.range (array.shape slice_axis)) := by
  have hord : (TimeSeries.init array toworld tr tr_slices start slice_axis reversed_slices
      (Sum.inl policy) interleaved).slice_order
      = buildSliceOrder (array.shape slice_axis) (Sum.inl policy) interleaved := rfl
  rw [hord]
  simp only [buildSliceOrder]
  rcases hpolicy with h | h <;> subst h <;> cases interleaved
  · rw [if_neg (by decide)]
    simp only [Bool.not_false, if_true]
    exact List.Perm.refl _
  · rw [if_neg (by decide)]
    simp only [Bool.not_true, Bool.false_eq_true, if_false]
    exact interAux_perm _
  · rw [if_pos rfl]
    simp only [Bool.not_false, if_true]
    exact List.reverse_perm _
  · rw [if_pos rfl]
    simp only [Bool.not_true, Bool.false_eq_true, if_false]
    exact (List.reverse_perm _).trans (interAux_perm _)

/-- Witness for C6 at `nslices = 5`, ascending interleaved. -/
theorem slice_order_is_permutation_witness :
    (("ascending" = "ascending" ∨ "ascending" = "descending")
      ∧ 1 ≤ (Arr4.mk 1 1 5 1 (fun _ _ _ _ => 0)).shape 2)
    ∧ (TimeSeries.init (Arr4.mk 1 1 5 1 (fun _ _ _ _ => 0)) 1 2 none 0 2 false
        (Sum.inl ("ascending")) true).slice_order.Perm
      (List.range ((Arr4.mk 1 1 5 1 (fun _ _ _ _ => 0)).shape 2)) :=
  ⟨⟨Or.inl rfl, by decide⟩,
    slice_order_is_permutation (Arr4.mk 1 1 5 1 (fun _ _ _ _ => 0)) 1 2 none 0 2 false
      "ascending" true (Or.inl rfl) (by decide)⟩

/- The Realign4d motion-estimation engine. -/

/-- Module-level defaults of `realign4d.py`. -/
def DEFAULT_SPEEDUP : ℤ := 4

/-- Default optimizer name. -/
def DEFAULT_OPTIMIZER : String := "powell"

/-- Default number of within-run correction loops. -/
def DEFAULT_WITHIN_LOOPS : ℕ := 2

/-- Default number of between-run correction loops. -/
def DEFAULT_BETWEEN_LOOPS : ℕ := 5

/-- Voxel coordinates `0:d:k` along one axis (numpy `mgrid` stride semantics: the
multiples of `k` below `d`). -/
def strided (d k : ℕ) : List ℕ := (List.range d).filter (fun i => i % k == 0)

/-- The subsampled voxel mask `np.mgrid[0:d0:k, 0:d1:k, 0:d2:k]`, flattened to a
list of grid coordinates. -/
def maskGrid (d0 d1 d2 k : ℕ) : List (ℕ × ℕ × ℕ) :=
  (strided d0 k).flatMap (fun x =>
    (strided d1 k).flatMap (fun y =>
      (strided d2 k).map (fun z => (x, y, z))))

/-- A voxel coordinate triple as a rational 3-vector. -/
def vec3 (p : ℕ × ℕ × ℕ) : Fin 3 → ℚ := ![(p.1 : ℚ), (p.2.1 : ℚ), (p.2.2 : ℚ)]

/-- The module-level `grid_coords` helper: composes
`Tv = fromworld . affine . toworld` and applies it to one voxel coordinate. -/
def grid_coords (p : ℕ × ℕ × ℕ) (affine : M4) (fromworld toworld : M4) : Fin 3 → ℚ :=
  apply_affine (fromworld * (affine * toworld)) (vec3 p)

/-- The `Realign4d` engine state: the sample matrix `data`, the voxel mask `xyz`,
per-scan transforms, and the statistics attributes (`m1`, `d2`, `alpha`, `beta` set
by `init_motion_detection`; `m`, `m2` set by `safe_variance`), which start at zero. -/
structure Realign4d where
  optimizer : String
  dims : ℕ × ℕ × ℕ × ℕ
  nscans : ℕ
  xyz : List (ℕ × ℕ × ℕ)
  data : ℕ → ℕ → ℚ
  toworld : M4
  fromworld : M4
  transforms : List M4
  fromtime : ℚ → ℚ → ℚ
  timestamps : ℕ → ℚ
  cbspline : SampleFn
  m1 : ℕ → ℚ
  d2 : ℕ → ℚ
  alpha : ℚ
  beta : ℚ
  m : ℕ → ℚ
  m2 : ℕ → ℚ

/-- The number of voxels in the mask (`self.xyz.shape[1]`). -/
def Realign4d.masksize (e : Realign4d) : ℕ := e.xyz.length

/-- The `Realign4d.__init__` constructor.  The external `Affine('rigid',
radius=BRAIN_RADIUS_MM)` default transform is modelled from the spec as the
identity ("Initialized to identity at engine construction"). -/
def Realign4d.init (cspline_transform : Arr4 → SampleFn) (st : SliceTimeFn)
    (ts : TimeSeries) (speedup : ℤ) (optimizer : String)
    (transforms : Option (List M4)) : Realign4d :=
  let nscans := ts.array.d3
  let k := (max 1 speedup).toNat
  { optimizer := optimizer
    dims := (ts.array.d0, ts.array.d1, ts.array.d2, ts.array.d3)
    nscans := nscans
    xyz := maskGrid ts.array.d0 ts.array.d1 ts.array.d2 k
    data := fun _ _ => 0
    toworld := ts.toworld
    fromworld := matInv ts.toworld
    transforms :=
      match transforms with
      | none => List.replicate nscans 1
      | some l => l
    fromtime := fun z t => ts.fromtime st z t
    timestamps := fun t => ts.tr * (t : ℚ)
    cbspline := cspline_transform ts.array
    m1 := fun _ => 0
    d2 := fun _ => 0
    alpha := 0
    beta := 0
    m := fun _ => 0
    m2 := fun _ => 0 }

/-- The value written into `data[v, t]` by `resample_inmask`: the source-grid
coordinates of mask point `v` under scan `t`'s current transform, sampled through
the spline interpolant at grid time `fromtime(Z, timestamps[t])`. -/
def Realign4d.resampVal (e : Realign4d) (t v : ℕ) : ℚ :=
  let q := grid_coords (e.xyz.getD v (0, 0, 0)) (e.transforms.getD t 1) e.fromworld e.toworld
  e.cbspline (q 0) (q 1) (q 2) (e.fromtime (q 2) (e.timestamps t))

/-- The `resample_inmask` method: overwrites column `t` of the sample matrix. -/
def Realign4d.resample_inmask (e : Realign4d) (t : ℕ) : Realign4d :=
  { e with data := fun v s => if s = t then e.resampVal t v else e.data v s }

/-- The `resample_all_inmask` method: resamples every scan in index order. -/
def Realign4d.resample_all_inmask (e : Realign4d) : Realign4d :=
  (List.range e.nscans).foldl Realign4d.resample_inmask e

/-- The `init_motion_detection` method: resamples scan `t`, then fixes the
leave-one-out mean `m1`, the scratch buffer `d2 = 0`, and the coefficients
`alpha = (n-1)/n * mean(var(fixed))` and `beta = (n-1)/n^2`. -/
def Realign4d.init_motion_detection (e : Realign4d) (t : ℕ) : Realign4d :=
  let e1 := e.resample_inmask t
  let n : ℚ := (e1.nscans : ℚ)
  let fixed := (Finset.range e1.nscans).erase t
  let m1 := fun v => (∑ s ∈ fixed, e1.data v s) / (n - 1)
  let var1 := fun v => (∑ s ∈ fixed, (e1.data v s - m1 v) ^ 2) / (n - 1)
  let alpha := ((n - 1) / n) * ((∑ v ∈ Finset.range e1.masksize, var1 v) / (e1.masksize : ℚ))
  { e1 with m1 := m1, d2 := fun _ => 0, alpha := alpha, beta := (n - 1) / n ^ 2 }

/-- The `msid` method (mean square intensity difference): resamples scan `t`,
writes `(data[:,t] - m1)^2` into `d2`, and returns its mean over the mask. -/
def Realign4d.msid (e : Realign4d) (t : ℕ) : ℚ × Realign4d :=
  let e1 := e.resample_inmask t
  let d2 := fun v => (e1.data v t - e1.m1 v) ^ 2
  ((∑ v ∈ Finset.range e1.masksize, d2 v) / (e1.masksize : ℚ), { e1 with d2 := d2 })

/-- The `variance` method: `alpha + beta * msid(t)`. -/
def Realign4d.variance (e : Realign4d) (t : ℕ) : ℚ × Realign4d :=
  let r := e.msid t
  (e.alpha + e.beta * r.1, r.2)

/-- The `safe_variance` method: full-sample per-voxel population variance over all
`nscans` columns, averaged over the mask, without the leave-one-out decomposition. -/
def Realign4d.safe_variance (e : Realign4d) (t : ℕ) : ℚ × Realign4d :=
  let e1 := e.resample_inmask t
  let n : ℚ := (e1.nscans : ℚ)
  let mMean := fun v => (∑ s ∈ Finset.range e1.nscans, e1.data v s) / n
  let m2Mean := fun v => (∑ s ∈ Finset.range e1.nscans, (e1.data v s) ^ 2) / n
  let mSq := fun v => (mMean v) ^ 2
  let m2Fin := fun v => m2Mean v - mSq v
  ((∑ v ∈ Finset.range e1.masksize, m2Fin v) / (e1.masksize : ℚ),
    { e1 with m := mSq, m2 := m2Fin })

/-- Which scipy minimizer `correct_motion` selects. -/
inductive FminKind where
  | simplex
  | powell
  | cg

/-- A cost function handed to the external minimizer: parameter vector and engine
state to cost and updated state (the source's `loss` closure mutates the engine). -/
abbrev LossFn := List ℚ → Realign4d → ℚ × Realign4d

/-- The optimizer progress callback (the source's `callback` closure). -/
abbrev CallbackFn := List ℚ → Realign4d → Realign4d

/-- The external scipy derivative-free minimizer, abstracted: given the selected
kind, the loss, the callback, the start parameters and the engine state, it returns
final parameters and the state after its (arbitrary) loss/callback calls. -/
abbrev FminOracle := FminKind → LossFn → CallbackFn → List ℚ → Realign4d → List ℚ × Realign4d

/-- The optimizer-selection chain at the top of `correct_motion`: three recognized
names, everything else raises `ValueError('Unrecognized optimizer')`. -/
def selectFmin (optimizer : String) : Except String FminKind :=
  if optimizer = "simplex" then Except.ok FminKind.simplex
  else if optimizer = "powell" then Except.ok FminKind.powell
  else if optimizer = "conjugate gradient" then Except.ok FminKind.cg
  else Except.error ("Unrecognized optimizer")

/-- In-place mutation of one scan's transform (`self.transforms[t].from_param(pc)`
replaces the transform of scan `t`). -/
def Realign4d.set_transform (e : Realign4d) (t : ℕ) (A : M4) : Realign4d :=
  { e with transforms := e.transforms.set t A }

/-- The `correct_motion` method: selects the minimizer (raising on an unrecognized
name before any resampling), resamples all scans, then per scan in index order fixes
the leave-one-out statistics and minimizes `msid(t)` over rigid parameters.  A raise
is modelled as `Except.error` carrying the message and the engine state at the raise
point. -/
def Realign4d.correct_motion (fmin : FminOracle) (from_param : List ℚ → M4)
    (to_param : M4 → List ℚ) (e : Realign4d) :
    Except (String × Realign4d) Realign4d :=
  match selectFmin e.optimizer with
  | Except.error msg => Except.error (msg, e)
  | Except.ok kind =>
      let e1 := e.resample_all_inmask
      Except.ok ((List.range e1.nscans).foldl (fun acc t =>
        let loss : LossFn := fun pc f => (f.set_transform t (from_param pc)).msid t
        let callback : CallbackFn := fun pc f => f.set_transform t (from_param pc)
        let acc1 := acc.init_motion_detection t
        let pc0 := to_param (acc1.transforms.getD t 1)
        let r := fmin kind loss callback pc0 acc1
        r.2.set_transform t (from_param r.1)) e1)

/-- The `resample` method: full-grid resampling of every scan under its final
transform, producing the corrected 4D volume. -/
def Realign4d.resample (e : Realign4d) : Arr4 :=
  { d0 := e.dims.1
    d1 := e.dims.2.1
    d2 := e.dims.2.2.1
    d3 := e.dims.2.2.2
    val := fun x y z t =>
      let q := grid_coords (x, y, z) (e.transforms.getD t 1) e.fromworld e.toworld
      e.cbspline (q 0) (q 1) (q 2) (e.fromtime (q 2) (e.timestamps t)) }

/-- The module-level `resample4d` convenience entry point (default speedup and
optimizer). -/
def resample4d (cspline_transform : Arr4 → SampleFn) (st : SliceTimeFn)
    (ts : TimeSeries) (transforms : Option (List M4)) : Arr4 :=
  (Realign4d.init cspline_transform st ts DEFAULT_SPEEDUP DEFAULT_OPTIMIZER transforms).resample

/-- The `_realign4d` single-run routine: build an engine and run `correct_motion`
for `loops` iterations, returning the per-scan transform list. -/
def _realign4d (cspline_transform : Arr4 → SampleFn) (st : SliceTimeFn)
    (fmin : FminOracle) (from_param : List ℚ → M4) (to_param : M4 → List ℚ)
    (ts : TimeSeries) (loops : ℕ) (speedup : ℤ) (optimizer : String) :
    Except (String × Realign4d) (List M4) := do
  let r := Realign4d.init cspline_transform st ts speedup optimizer none
  let r ← (List.range loops).foldlM
    (fun acc _ => acc.correct_motion fmin from_param to_param) r
  return r.transforms

/-- Temporal mean of a 4D array (`corr_run.mean(3)`). -/
def Arr4.meanT (a : Arr4) (x y z : ℕ) : ℚ :=
  (∑ t ∈ Finset.range a.d3, a.val x y z t) / (a.d3 : ℚ)

/-- The stacked run-mean synthetic 4D array:
`np.rollaxis(np.asarray([c.mean(3) for c in corr_runs]), 0, 4)`. -/
def stackMeans (corr_runs : List Arr4) : Arr4 :=
  { d0 := (corr_runs.headD default).d0
    d1 := (corr_runs.headD default).d1
    d2 := (corr_runs.headD default).d2
    d3 := corr_runs.length
    val := fun x y z i => (corr_runs.getD i default).meanT x y z }

/-- The synthetic mean-image time series built inside `realign4d` for the
between-run pass: each corrected run's temporal mean is one scan, with the FIRST
run's voxel-to-world map, `tr = 1.0` and `tr_slices = 0.0` (the source carries a
FIXME noting the other runs' maps are not checked for equality). -/
def realign4d_mean_img (cspline_transform : Arr4 → SampleFn) (st : SliceTimeFn)
    (runs : List TimeSeries) (transfo_runs : List (List M4)) : TimeSeries :=
  let corr_runs := List.zipWith
    (fun run tr => resample4d cspline_transform st run (some tr)) runs transfo_runs
  let aux := stackMeans corr_runs
  TimeSeries.init aux (runs.headD default).toworld 1 (some 0) 0 2 false
    (Sum.inl ("ascending")) false

/-- The result of the top-level `realign4d`: a flat transform list for a single run,
a nested list for multiple runs. -/
inductive RealignResult where
  | single (transforms : List M4)
  | multi (transforms : List (List M4))

/-- The top-level multi-run `realign4d` routine: within-run correction per run;
single-run input short-circuits; otherwise a between-run pass on the run-mean
synthetic series, composing `between * within` per scan per run. -/
def realign4d (cspline_transform : Arr4 → SampleFn) (st : SliceTimeFn)
    (fmin : FminOracle) (from_param : List ℚ → M4) (to_param : M4 → List ℚ)
    (runs : List TimeSeries) (within_loops between_loops : ℕ) (speedup : ℤ)
    (optimizer : String) : Except (String × Realign4d) RealignResult := do
  let nruns := runs.length
  let transfo_runs ← runs.mapM (fun run =>
    _realign4d cspline_transform st fmin from_param to_param run within_loops speedup optimizer)
  if nruns = 1 then
    return RealignResult.single (transfo_runs.headD [])
  else
    let mean_img := realign4d_mean_img cspline_transform st runs transfo_runs
    let transfo_mean ← _realign4d cspline_transform st fmin from_param to_param mean_img
      between_loops speedup optimizer
    let _corr_mean := resample4d cspline_transform st mean_img (some transfo_mean)
    return RealignResult.multi ((List.range nruns).map (fun i =>
      (transfo_runs.getD i []).map (fun T => transfo_mean.getD i 1 * T)))

/-- C1: the slice-timing round trip: for every valid slice index `z` and grid time
`t`, `fromtime(z, totime(z, t)) = t` exactly, provided `tr > 0`; this holds for any
behaviour of the external `slice_time` routine. -/
theorem fromtime_totime_round_trip (st : SliceTimeFn) (ts : TimeSeries) (z : ℕ) (t : ℚ)
    (hz : z < ts.nslices) (htr : 0 < ts.tr) :
    ts.fromtime st (z : ℚ) (ts.totime st (z : ℚ) t) = t := by
  have h : ts.tr ≠ 0 := ne_of_gt htr
  simp only [TimeSeries.fromtime, TimeSeries.totime]
  field_simp
  ring

/- Concrete objects used by witnesses and counterexamples. -/

/-- A small concrete engine state used by witnesses and counterexamples. -/
def wEngine (opt : String) : Realign4d :=
  { optimizer := opt
    dims := (1, 1, 1, 2)
    nscans := 2
    xyz := [(0, 0, 0)]
    data := fun v s => ((v + 2 * s : ℕ) : ℚ)
    toworld := 1
    fromworld := 1
    transforms := [1, 1]
    fromtime := fun _ tt => tt
    timestamps := fun s => (s : ℚ)
    cbspline := fun _ _ _ _ => 3
    m1 := fun _ => 0
    d2 := fun _ => 0
    alpha := 0
    beta := 0
    m := fun _ => 0
    m2 := fun _ => 0 }

/-- A tiny concrete time series (one voxel, one scan, constant intensity `c`). -/
def wTs (c : ℚ) : TimeSeries :=
  { array := { d0 := 1, d1 := 1, d2 := 1, d3 := 1, val := fun _ _ _ _ => c }
    toworld := 1
    nslices := 1
    tr := 1
    tr_slices := 1
    start := 0
    slice_order := [0]
    reversed_slices := false }

/-- A trivial concrete spline collaborator. -/
def wCs : Arr4 → SampleFn := fun _ _ _ _ _ => 0

/-- A trivial concrete slice-time routine. -/
def wSt : SliceTimeFn := fun _ _ _ => 0

/-- A trivial concrete minimizer oracle: returns the start point unchanged. -/
def wFmin : FminOracle := fun _ _ _ pc e => (pc, e)

/-- A trivial concrete `from_param`: every parameter vector is the identity. -/
def wFp : List ℚ → M4 := fun _ => 1

/-- A trivial concrete `to_param`. -/
def wTp : M4 → List ℚ := fun _ => []

/- Claim theorems. -/

/-- C4: for every single-run input, `realign4d` returns exactly the within-run
correction's per-scan transform list (`_realign4d`); the between-run pass is
skipped entirely and no between-run transform is composed onto the result. -/
theorem realign4d_single_run_short_circuit (cs : Arr4 → SampleFn) (st : SliceTimeFn)
    (fmin : FminOracle) (fp : List ℚ → M4) (tp : M4 → List ℚ) (ts : TimeSeries)
    (within_loops between_loops : ℕ) (speedup : ℤ) (optimizer : String) :
    realign4d cs st fmin fp tp [ts] within_loops between_loops speedup optimizer
      = Except.map RealignResult.single
          (_realign4d cs st fmin fp tp ts within_loops speedup optimizer) := by
  cases h : _realign4d cs st fmin fp tp ts within_loops speedup optimizer with
  | error err =>
      simp [realign4d, List.mapM.loop, h, Except.map, bind, Except.bind, pure, Except.pure]
  | ok l =>
      simp [realign4d, List.mapM.loop, h, Except.map, bind, Except.bind, pure, Except.pure]

/-- C5 counterexample: the hyphen-spelled optimizer name `conjugate-gradient` is not
accepted by `correct_motion`; it raises `ValueError('Unrecognized optimizer')` (the
source only recognizes the space-spelled `conjugate gradient`). -/
theorem correct_motion_rejects_hyphenated_name :
    (wEngine ("conjugate-gradient")).correct_motion wFmin wFp wTp
      = Except.error ("Unrecognized optimizer", wEngine ("conjugate-gradient")) := rfl

/-- C5 (amended): each of the names `simplex`, `powell`, `conjugate gradient`
(space-spelled, as the source recognizes it) selects a minimizer without error;
every other optimizer name raises `ValueError('Unrecognized optimizer')`, and the
error is raised before any resampling work, carrying the engine state unchanged
(in particular the sample matrix is untouched). -/
theorem correct_motion_optimizer_selection (fmin : FminOracle) (fp : List ℚ → M4)
    (tp : M4 → List ℚ) :
    (∀ e : Realign4d,
        e.optimizer = "simplex" ∨ e.optimizer = "powell"
          ∨ e.optimizer = "conjugate gradient" →
        ∃ e', e.correct_motion fmin fp tp = Except.ok e')
    ∧ (∀ e : Realign4d,
        e.optimizer ≠ "simplex" → e.optimizer ≠ "powell"
          → e.optimizer ≠ "conjugate gradient" →
        e.correct_motion fmin fp tp = Except.error ("Unrecognized optimizer", e)) := by
  constructor
  · intro e h
    rcases h with h | h | h <;>
      · unfold Realign4d.correct_motion
        rw [h]
        exact ⟨_, rfl⟩
  · intro e h1 h2 h3
    unfold Realign4d.correct_motion
    rw [show selectFmin e.optimizer = Except.error ("Unrecognized optimizer") from by
      simp [selectFmin, h1, h2, h3]]

/-- Witness for C5: `simplex` is accepted on a concrete engine; the name `foo` is
rejected with the state carried unchanged. -/
theorem correct_motion_optimizer_selection_witness :
    (((wEngine ("simplex")).optimizer = "simplex" ∨ (wEngine ("simplex")).optimizer = "powell"
        ∨ (wEngine ("simplex")).optimizer = "conjugate gradient")
      ∧ ∃ e', (wEngine ("simplex")).correct_motion wFmin wFp wTp = Except.ok e')
    ∧ ((wEngine ("foo")).optimizer ≠ "simplex"
      ∧ (wEngine ("foo")).correct_motion wFmin wFp wTp
          = Except.error ("Unrecognized optimizer", wEngine ("foo"))) :=
  ⟨⟨Or.inl rfl,
      (correct_motion_optimizer_selection wFmin wFp wTp).1 (wEngine ("simplex")) (Or.inl rfl)⟩,
    ⟨by decide,
      (correct_motion_optimizer_selection wFmin wFp wTp).2 (wEngine ("foo"))
        (by decide) (by decide) (by decide)⟩⟩

/-- C9: `msid(t)` (and hence `variance(t)`) leaves the leave-one-out statistics
`m1`, `alpha`, `beta` unchanged — as well as the transforms, mask, maps, spline
coefficients and timing state — and mutates only the `d2` scratch buffer and column
`t` of the sample matrix; so repeated cost evaluations during one scan's
optimization all use the statistics fixed by `init_motion_detection(t)`. -/
theorem msid_frame_effect (e : Realign4d) (t : ℕ) :
    ((e.msid t).2.m1 = e.m1 ∧ (e.msid t).2.alpha = e.alpha ∧ (e.msid t).2.beta = e.beta)
    ∧ (∀ v s, s ≠ t → (e.msid t).2.data v s = e.data v s)
    ∧ ((e.msid t).2.transforms = e.transforms ∧ (e.msid t).2.xyz = e.xyz
        ∧ (e.msid t).2.optimizer = e.optimizer ∧ (e.msid t).2.dims = e.dims
        ∧ (e.msid t).2.nscans = e.nscans ∧ (e.msid t).2.toworld = e.toworld
        ∧ (e.msid t).2.fromworld = e.fromworld ∧ (e.msid t).2.fromtime = e.fromtime
        ∧ (e.msid t).2.timestamps = e.timestamps ∧ (e.msid t).2.cbspline = e.cbspline
        ∧ (e.msid t).2.m = e.m ∧ (e.msid t).2.m2 = e.m2)
    ∧ (e.variance t).2 = (e.msid t).2
    ∧ (e.variance t).1 = e.alpha + e.beta * (e.msid t).1 := by
  refine ⟨⟨rfl, rfl, rfl⟩, ?_,
    ⟨rfl, rfl, rfl, rfl, rfl, rfl, rfl, rfl, rfl, rfl, rfl, rfl⟩, rfl, rfl⟩
  intro v s hs
  show (if s = t then e.resampVal t v else e.data v s) = e.data v s
  rw [if_neg hs]

/-- Witness for C9 on a concrete engine, exercising the off-column frame condition
at `s = 1 ≠ t = 0`. -/
theorem msid_frame_effect_witness :
    ((wEngine ("powell")).msid 0).2.m1 = (wEngine ("powell")).m1
    ∧ ((1 : ℕ) ≠ 0
      ∧ ((wEngine ("powell")).msid 0).2.data 0 1 = (wEngine ("powell")).data 0 1) :=
  ⟨(msid_frame_effect (wEngine ("powell")) 0).1.1,
    by decide, (msid_frame_effect (wEngine ("powell")) 0).2.1 0 1 (by decide)⟩

/-- C10: the synthetic mean-image time series of the between-run pass is
constructed with the first run's voxel-to-world map, `tr = 1.0` and
`tr_slices = 0.0`; the voxel-to-world maps of the other runs play no role in (and
are not checked against) that choice of map: rewriting every later run's map by an
arbitrary function leaves the constructed map equal to the first run's. -/
theorem mean_img_uses_first_run_map (cs : Arr4 → SampleFn) (st : SliceTimeFn)
    (runs : List TimeSeries) (trs : List (List M4)) (f : M4 → M4)
    (hruns : 2 ≤ runs.length) :
    (realign4d_mean_img cs st runs trs).toworld = (runs.headD default).toworld
    ∧ (realign4d_mean_img cs st runs trs).tr = 1
    ∧ (realign4d_mean_img cs st runs trs).tr_slices = 0
    ∧ (realign4d_mean_img cs st
        (runs.headD default :: runs.tail.map (fun r => { r with toworld := f r.toworld }))
        trs).toworld = (runs.headD default).toworld :=
  ⟨rfl, rfl, rfl, rfl⟩

/-- Witness for C10 on a concrete 2-run input. -/
theorem mean_img_uses_first_run_map_witness :
    2 ≤ [wTs 0, wTs 1].length
    ∧ (realign4d_mean_img wCs wSt [wTs 0, wTs 1] [[1], [1]]).toworld
        = ([wTs 0, wTs 1].headD default).toworld
    ∧ (realign4d_mean_img wCs wSt [wTs 0, wTs 1] [[1], [1]]).tr = 1
    ∧ (realign4d_mean_img wCs wSt [wTs 0, wTs 1] [[1], [1]]).tr_slices = 0 :=
  ⟨by decide,
    (mean_img_uses_first_run_map wCs wSt [wTs 0, wTs 1] [[1], [1]] id (by decide)).1,
    (mean_img_uses_first_run_map wCs wSt [wTs 0, wTs 1] [[1], [1]] id (by decide)).2.1,
    (mean_img_uses_first_run_map wCs wSt [wTs 0, wTs 1] [[1], [1]] id (by decide)).2.2.1⟩

/- Mask-size development (claim C8). -/

lemma strided_length (d k : ℕ) (hk : 1 ≤ k) :
    (strided d k).length = (d + k - 1) / k := by
  induction d with
  | zero =>
      have h0 : (k - 1) / k = 0 := Nat.div_eq_of_lt (by omega)
      simp [strided, h0]
  | succ d ih =>
      have h1 : strided (d + 1) k = strided d k ++ (if d % k == 0 then [d] else []) := by
        simp [strided, List.range_succ, List.filter_append, List.filter_singleton,
          Bool.cond_eq_ite]
      have h2 : d + 1 + k - 1 = (d + k - 1) + 1 := by omega
      have h3 : d + k - 1 + 1 = d + k := by omega
      have h4 : (k ∣ d + k) ↔ d % k = 0 := by
        rw [Nat.dvd_add_self_right, Nat.dvd_iff_mod_eq_zero]
      rw [h1, List.length_append, ih, h2, Nat.succ_div, h3]
      by_cases hd : d % k = 0
      · simp [hd, h4]
      · simp [hd, h4]

lemma length_flatMap_const {α β : Type} (l : List α) (f : α → List β) (c : ℕ)
    (h : ∀ a, (f a).length = c) : (l.flatMap f).length = l.length * c := by
  induction l with
  | nil => simp
  | cons a l ih => simp [List.flatMap_cons, h, ih, Nat.succ_mul, Nat.add_comm]

lemma maskGrid_length (d0 d1 d2 k : ℕ) (hk : 1 ≤ k) :
    (maskGrid d0 d1 d2 k).length
      = ((d0 + k - 1) / k) * (((d1 + k - 1) / k) * ((d2 + k - 1) / k)) := by
  unfold maskGrid
  rw [length_flatMap_const _ _ (((d1 + k - 1) / k) * ((d2 + k - 1) / k))
      (fun x => ?_), strided_length d0 k hk]
  rw [length_flatMap_const _ _ ((d2 + k - 1) / k) (fun y => ?_), strided_length d1 k hk]
  rw [List.length_map, strided_length d2 k hk]

/-- C8: the engine coerces `speedup` to at least 1; the mask is the stride-`k` grid
with `ceil(d/k)` coordinates along each axis (`k = max(1, speedup)`), so for
`speedup = 1` the mask covers every voxel of the volume. -/
theorem speedup_mask_stride (cs : Arr4 → SampleFn) (st : SliceTimeFn) (ts : TimeSeries)
    (speedup : ℤ) (optimizer : String) (transforms : Option (List M4)) :
    (1 : ℤ) ≤ max 1 speedup
    ∧ (Realign4d.init cs st ts speedup optimizer transforms).xyz
        = maskGrid ts.array.d0 ts.array.d1 ts.array.d2 (max 1 speedup).toNat
    ∧ (∀ d : ℕ, (strided d (max 1 speedup).toNat).length
        = (d + (max 1 speedup).toNat - 1) / (max 1 speedup).toNat)
    ∧ (Realign4d.init cs st ts speedup optimizer transforms).masksize
        = ((ts.array.d0 + (max 1 speedup).toNat - 1) / (max 1 speedup).toNat)
          * (((ts.array.d1 + (max 1 speedup).toNat - 1) / (max 1 speedup).toNat)
            * ((ts.array.d2 + (max 1 speedup).toNat - 1) / (max 1 speedup).toNat))
    ∧ (speedup = 1 →
        (Realign4d.init cs st ts speedup optimizer transforms).masksize
          = ts.array.d0 * (ts.array.d1 * ts.array.d2)) := by
  have hk : 1 ≤ (max 1 speedup).toNat := by
    have h1 := le_max_left (1 : ℤ) speedup
    omega
  refine ⟨le_max_left _ _, rfl, fun d => strided_length d _ hk, ?_, ?_⟩
  · exact maskGrid_length _ _ _ _ hk
  · intro h
    subst h
    have hk1 : (max (1 : ℤ) 1).toNat = 1 := rfl
    show (maskGrid ts.array.d0 ts.array.d1 ts.array.d2 (max (1 : ℤ) 1).toNat).length = _
    rw [hk1, maskGrid_length _ _ _ _ (by omega)]
    simp

/-- Witness for C8 at shape `(2, 3, 4)` and `speedup = 1`. -/
theorem speedup_mask_stride_witness :
    (1 : ℤ) ≤ max 1 1
    ∧ ((1 : ℤ) = 1 →
        (Realign4d.init wCs wSt (wTs 0) 1 ("powell") none).masksize
          = (wTs 0).array.d0 * ((wTs 0).array.d1 * (wTs 0).array.d2)) :=
  ⟨(speedup_mask_stride wCs wSt (wTs 0) 1 ("powell") none).1,
    (speedup_mask_stride wCs wSt (wTs 0) 1 ("powell") none).2.2.2.2⟩

/- Leave-one-out variance development (claim C2). -/

lemma loo_variance_pointwise (n t : ℕ) (hn : 2 ≤ n) (ht : t < n) (x : ℕ → ℚ) :
    (((n : ℚ) - 1) / n) * ((∑ s ∈ (Finset.range n).erase t,
        (x s - (∑ u ∈ (Finset.range n).erase t, x u) / ((n : ℚ) - 1)) ^ 2) / ((n : ℚ) - 1))
      + (((n : ℚ) - 1) / (n : ℚ) ^ 2)
        * (x t - (∑ u ∈ (Finset.range n).erase t, x u) / ((n : ℚ) - 1)) ^ 2
      = (∑ s ∈ Finset.range n, x s ^ 2) / n - ((∑ s ∈ Finset.range n, x s) / n) ^ 2 := by
  have htm : t ∈ Finset.range n := Finset.mem_range.mpr ht
  have hn0 : (n : ℚ) ≠ 0 := by
    have h : (0 : ℚ) < (n : ℚ) := by exact_mod_cast (by omega : 0 < n)
    exact ne_of_gt h
  have hn1 : (n : ℚ) - 1 ≠ 0 := by
    have h : (2 : ℚ) ≤ (n : ℚ) := by exact_mod_cast hn
    intro hz
    nlinarith
  have hcard : ((Finset.range n).erase t).card = n - 1 := by
    rw [Finset.card_erase_of_mem htm, Finset.card_range]
  have hcast : ((n - 1 : ℕ) : ℚ) = (n : ℚ) - 1 := by
    rw [Nat.cast_sub (by omega : 1 ≤ n)]
    norm_num
  have hsum : ∑ s ∈ Finset.range n, x s
      = (∑ u ∈ (Finset.range n).erase t, x u) + x t :=
    (Finset.sum_erase_add _ _ htm).symm
  have hsumsq : ∑ s ∈ Finset.range n, x s ^ 2
      = (∑ u ∈ (Finset.range n).erase t, x u ^ 2) + x t ^ 2 :=
    (Finset.sum_erase_add _ _ htm).symm
  have hdev : ∑ s ∈ (Finset.range n).erase t,
      (x s - (∑ u ∈ (Finset.range n).erase t, x u) / ((n : ℚ) - 1)) ^ 2
      = (∑ u ∈ (Finset.range n).erase t, x u ^ 2)
        - 2 * ((∑ u ∈ (Finset.range n).erase t, x u) / ((n : ℚ) - 1))
            * (∑ u ∈ (Finset.range n).erase t, x u)
        + ((n : ℚ) - 1) * ((∑ u ∈ (Finset.range n).erase t, x u) / ((n : ℚ) - 1)) ^ 2 := by
    have hterm : ∀ s ∈ (Finset.range n).erase t,
        (x s - (∑ u ∈ (Finset.range n).erase t, x u) / ((n : ℚ) - 1)) ^ 2
          = x s ^ 2
            - 2 * ((∑ u ∈ (Finset.range n).erase t, x u) / ((n : ℚ) - 1)) * x s
            + ((∑ u ∈ (Finset.range n).erase t, x u) / ((n : ℚ) - 1)) ^ 2 := by
      intro s _
      ring
    rw [Finset.sum_congr rfl hterm, Finset.sum_add_distrib, Finset.sum_sub_distrib,
      ← Finset.mul_sum, Finset.sum_const, hcard, nsmul_eq_mul, hcast]
  rw [hsum, hsumsq, hdev]
  field_simp
  ring

/-- C2: for every scan index `t` and every engine state, the decomposed objective
`variance(t) = alpha + beta * msid(t)`, with `m1`, `alpha`, `beta` fixed by
`init_motion_detection(t)` from the same data state, equals the full-sample
recomputation `safe_variance(t)` exactly. -/
theorem loo_variance_consistency (e : Realign4d) (t : ℕ)
    (hn : 2 ≤ e.nscans) (ht : t < e.nscans) :
    ((e.init_motion_detection t).variance t).1
      = ((e.init_motion_detection t).safe_variance t).1 := by
  set x : ℕ → ℕ → ℚ := fun v s => if s = t then e.resampVal t v else e.data v s with hxdef
  have hxt : ∀ v, x v t = e.resampVal t v := by
    intro v
    rw [hxdef]
    simp
  have e1m1 : ∀ v, (e.init_motion_detection t).m1 v
      = (∑ s ∈ (Finset.range e.nscans).erase t, x v s) / ((e.nscans : ℚ) - 1) :=
    fun v => rfl
  have hvar : ((e.init_motion_detection t).variance t).1
      = (((e.nscans : ℚ) - 1) / (e.nscans : ℚ))
          * ((∑ v ∈ Finset.range e.masksize,
              (∑ s ∈ (Finset.range e.nscans).erase t,
                (x v s - (∑ u ∈ (Finset.range e.nscans).erase t, x v u)
                  / ((e.nscans : ℚ) - 1)) ^ 2) / ((e.nscans : ℚ) - 1)) / (e.masksize : ℚ))
        + (((e.nscans : ℚ) - 1) / (e.nscans : ℚ) ^ 2)
          * ((∑ v ∈ Finset.range e.masksize,
              (x v t - (∑ u ∈ (Finset.range e.nscans).erase t, x v u)
                / ((e.nscans : ℚ) - 1)) ^ 2) / (e.masksize : ℚ)) := by
    have hmsid : (((e.init_motion_detection t).msid t)).1
        = (∑ v ∈ Finset.range e.masksize,
            (x v t - (∑ u ∈ (Finset.range e.nscans).erase t, x v u)
              / ((e.nscans : ℚ) - 1)) ^ 2) / (e.masksize : ℚ) := by
      have hcol : ∀ v, ((e.init_motion_detection t).resample_inmask t).data v t = x v t := by
        intro v
        show (if t = t then (e.init_motion_detection t).resampVal t v
              else (e.init_motion_detection t).data v t) = x v t
        rw [if_pos rfl, hxt v]
        rfl
      show (∑ v ∈ Finset.range e.masksize,
          (((e.init_motion_detection t).resample_inmask t).data v t
            - (e.init_motion_detection t).m1 v) ^ 2) / (e.masksize : ℚ) = _
      rw [Finset.sum_congr rfl (fun v _ => by rw [hcol v, e1m1 v])]
    show (e.init_motion_detection t).alpha
        + (e.init_motion_detection t).beta * ((e.init_motion_detection t).msid t).1 = _
    rw [hmsid]
    rfl
  have hsafe : ((e.init_motion_detection t).safe_variance t).1
      = (∑ v ∈ Finset.range e.masksize,
          ((∑ s ∈ Finset.range e.nscans, x v s ^ 2) / (e.nscans : ℚ)
            - ((∑ s ∈ Finset.range e.nscans, x v s) / (e.nscans : ℚ)) ^ 2))
        / (e.masksize : ℚ) := by
    have hdata2 : ∀ v s, ((e.init_motion_detection t).resample_inmask t).data v s = x v s := by
      intro v s
      show (if s = t then (e.init_motion_detection t).resampVal t v
            else (e.init_motion_detection t).data v s) = x v s
      by_cases h : s = t
      · subst h
        rw [if_pos rfl, hxt v]
        rfl
      · rw [if_neg h]
        rfl
    show (∑ v ∈ Finset.range e.masksize,
        ((∑ s ∈ Finset.range e.nscans,
            (((e.init_motion_detection t).resample_inmask t).data v s) ^ 2) / (e.nscans : ℚ)
          - ((∑ s ∈ Finset.range e.nscans,
              ((e.init_motion_detection t).resample_inmask t).data v s) / (e.nscans : ℚ)) ^ 2))
        / (e.masksize : ℚ) = _
    simp only [hdata2]
  rw [hvar, hsafe, ← mul_div_assoc, ← mul_div_assoc, div_add_div_same]
  rw [Finset.mul_sum, Finset.mul_sum, ← Finset.sum_add_distrib]
  refine congrArg (fun q => q / (e.masksize : ℚ)) ?_
  refine Finset.sum_congr rfl (fun v _ => ?_)
  exact loo_variance_pointwise e.nscans t hn ht (x v)

/-- Witness for C2 on a concrete engine state with two scans, at scan 0. -/
theorem loo_variance_consistency_witness :
    (2 ≤ (wEngine ("powell")).nscans ∧ 0 < (wEngine ("powell")).nscans)
    ∧ (((wEngine ("powell")).init_motion_detection 0).variance 0).1
        = (((wEngine ("powell")).init_motion_detection 0).safe_variance 0).1 :=
  ⟨⟨by decide, by decide⟩,
    loo_variance_consistency (wEngine ("powell")) 0 (by decide) (by decide)⟩

/- Static-volume development (claim C7). -/

lemma foldl_resample_proj (l : List ℕ) (e : Realign4d) :
    (l.foldl Realign4d.resample_inmask e).xyz = e.xyz
    ∧ (l.foldl Realign4d.resample_inmask e).transforms = e.transforms
    ∧ (l.foldl Realign4d.resample_inmask e).fromworld = e.fromworld
    ∧ (l.foldl Realign4d.resample_inmask e).toworld = e.toworld
    ∧ (l.foldl Realign4d.resample_inmask e).cbspline = e.cbspline
    ∧ (l.foldl Realign4d.resample_inmask e).fromtime = e.fromtime
    ∧ (l.foldl Realign4d.resample_inmask e).timestamps = e.timestamps
    ∧ (l.foldl Realign4d.resample_inmask e).nscans = e.nscans := by
  induction l generalizing e with
  | nil => exact ⟨rfl, rfl, rfl, rfl, rfl, rfl, rfl, rfl⟩
  | cons a l ih => exact ih (e.resample_inmask a)

lemma foldl_resample_data (l : List ℕ) (e : Realign4d) (v s : ℕ) :
    (l.foldl Realign4d.resample_inmask e).data v s
      = if s ∈ l then e.resampVal s v else e.data v s := by
  induction l generalizing e with
  | nil => simp
  | cons a l ih =>
      rw [List.foldl_cons, ih (e.resample_inmask a)]
      by_cases h1 : s ∈ l
      · rw [if_pos h1, if_pos (List.mem_cons_of_mem a h1)]
        rfl
      · by_cases h2 : s = a
        · subst h2
          rw [if_neg h1, if_pos (List.mem_cons_self s l)]
          show (if s = s then e.resampVal s v else e.data v s) = e.resampVal s v
          rw [if_pos rfl]
        · rw [if_neg h1, if_neg (by simp [h1, h2])]
          show (if s = a then e.resampVal a v else e.data v s) = e.data v s
          rw [if_neg h2]

lemma resample_all_proj (e : Realign4d) :
    e.resample_all_inmask.xyz = e.xyz
    ∧ e.resample_all_inmask.transforms = e.transforms
    ∧ e.resample_all_inmask.fromworld = e.fromworld
    ∧ e.resample_all_inmask.toworld = e.toworld
    ∧ e.resample_all_inmask.cbspline = e.cbspline
    ∧ e.resample_all_inmask.fromtime = e.fromtime
    ∧ e.resample_all_inmask.timestamps = e.timestamps
    ∧ e.resample_all_inmask.nscans = e.nscans :=
  foldl_resample_proj (List.range e.nscans) e

lemma resample_all_data (e : Realign4d) (v s : ℕ) :
    e.resample_all_inmask.data v s
      = if s ∈ List.range e.nscans then e.resampVal s v else e.data v s :=
  foldl_resample_data (List.range e.nscans) e v s

/-- C7: if every scan's transform is the identity (the engine's freshly constructed
state) and the spline interpolant of the volume is time-constant (the sampler
reproduces the static intensities), then `msid(t) = 0` for every scan `t`, in the
state reached by `resample_all_inmask` followed by `init_motion_detection(t)`. -/
theorem msid_zero_for_identity_static (cs : Arr4 → SampleFn) (st : SliceTimeFn)
    (ts : TimeSeries) (speedup : ℤ) (optimizer : String) (t : ℕ)
    (hdet : IsUnit ts.toworld.det)
    (hstatic : ∀ x y z t1 t2, cs ts.array x y z t1 = cs ts.array x y z t2)
    (hn : 2 ≤ ts.array.d3) (ht : t < ts.array.d3) :
    ((((Realign4d.init cs st ts speedup optimizer none).resample_all_inmask
        ).init_motion_detection t).msid t).1 = 0 := by
  set e0 := Realign4d.init cs st ts speedup optimizer none with he0
  set g : ℕ → ℚ := fun v =>
    e0.cbspline (vec3 (e0.xyz.getD v (0, 0, 0)) 0) (vec3 (e0.xyz.getD v (0, 0, 0)) 1)
      (vec3 (e0.xyz.getD v (0, 0, 0)) 2) 0 with hg
  have hT : e0.fromworld * ((1 : M4) * e0.toworld) = 1 := by
    rw [one_mul]
    exact matInv_mul_self ts.toworld hdet
  have htrans : ∀ s, e0.transforms.getD s 1 = 1 := by
    intro s
    show (List.replicate e0.nscans (1 : M4)).getD s 1 = 1
    rcases Nat.lt_or_ge s e0.nscans with h | h
    · rw [List.getD_eq_getElem _ _ (by simpa using h)]
      exact List.getElem_replicate _ _
    · exact List.getD_eq_default _ _ (by simpa using h)
  have hval : ∀ (e' : Realign4d), e'.xyz = e0.xyz → e'.transforms = e0.transforms
      → e'.fromworld = e0.fromworld → e'.toworld = e0.toworld
      → e'.cbspline = e0.cbspline → e'.fromtime = e0.fromtime
      → e'.timestamps = e0.timestamps → ∀ s v, e'.resampVal s v = g v := by
    intro e' h1 h2 h3 h4 h5 h6 h7 s v
    simp only [Realign4d.resampVal]
    rw [h1, h2, h3, h4, h5, h6, h7]
    have hq : grid_coords (e0.xyz.getD v (0, 0, 0)) (e0.transforms.getD s 1)
        e0.fromworld e0.toworld = vec3 (e0.xyz.getD v (0, 0, 0)) := by
      unfold grid_coords
      rw [htrans s, hT, apply_affine_one]
    rw [hq]
    exact hstatic _ _ _ _ _
  have hproj := resample_all_proj e0
  set e1 := e0.resample_all_inmask with he1
  have hns : e1.nscans = e0.nscans := hproj.2.2.2.2.2.2.2
  have hn0 : 2 ≤ e0.nscans := hn
  have ht0 : t < e0.nscans := ht
  have hnsq : ((e0.nscans : ℚ)) - 1 ≠ 0 := by
    have h2 : (2 : ℚ) ≤ (e0.nscans : ℚ) := by exact_mod_cast hn0
    intro hz
    nlinarith
  have hdata1 : ∀ v s, s < e0.nscans → e1.data v s = g v := by
    intro v s hs
    have h := resample_all_data e0 v s
    rw [he1, h, if_pos (List.mem_range.mpr hs)]
    exact hval e0 rfl rfl rfl rfl rfl rfl rfl s v
  have hm1 : ∀ v, (e1.init_motion_detection t).m1 v = g v := by
    intro v
    show (∑ s ∈ (Finset.range e1.nscans).erase t, (e1.resample_inmask t).data v s)
        / ((e1.nscans : ℚ) - 1) = g v
    have hsum : ∑ s ∈ (Finset.range e1.nscans).erase t, (e1.resample_inmask t).data v s
        = ∑ _s ∈ (Finset.range e1.nscans).erase t, g v := by
      refine Finset.sum_congr rfl (fun s hs => ?_)
      have hst : s ≠ t := Finset.ne_of_mem_erase hs
      have hsn : s < e1.nscans := Finset.mem_range.mp (Finset.mem_of_mem_erase hs)
      show (if s = t then e1.resampVal t v else e1.data v s) = g v
      rw [if_neg hst]
      exact hdata1 v s (by omega)
    rw [hsum, Finset.sum_const, Finset.card_erase_of_mem
        (Finset.mem_range.mpr (by omega)), Finset.card_range, nsmul_eq_mul, hns]
    have hc : (((e0.nscans - 1 : ℕ)) : ℚ) = (e0.nscans : ℚ) - 1 := by
      rw [Nat.cast_sub (by omega)]
      norm_num
    rw [hc]
    exact mul_div_cancel_left₀ (g v) hnsq
  have hRt : ∀ v, ((e1.init_motion_detection t).resample_inmask t).data v t = g v := by
    intro v
    show (if t = t then (e1.init_motion_detection t).resampVal t v
          else (e1.init_motion_detection t).data v t) = g v
    rw [if_pos rfl]
    refine hval _ ?_ ?_ ?_ ?_ ?_ ?_ ?_ t v
    · exact hproj.1
    · exact hproj.2.1
    · exact hproj.2.2.1
    · exact hproj.2.2.2.1
    · exact hproj.2.2.2.2.1
    · exact hproj.2.2.2.2.2.1
    · exact hproj.2.2.2.2.2.2.1
  show (∑ v ∈ Finset.range (e1.init_motion_detection t).masksize,
      (((e1.init_motion_detection t).resample_inmask t).data v t
        - (e1.init_motion_detection t).m1 v) ^ 2)
      / ((e1.init_motion_detection t).masksize : ℚ) = 0
  have hzero : ∀ v ∈ Finset.range (e1.init_motion_detection t).masksize,
      (((e1.init_motion_detection t).resample_inmask t).data v t
        - (e1.init_motion_detection t).m1 v) ^ 2 = 0 := by
    intro v _
    rw [hRt v, hm1 v]
    ring
  rw [Finset.sum_congr rfl hzero, Finset.sum_const, smul_zero, zero_div]

/-- Witness for C7 on a concrete static two-scan series with identity map. -/
theorem msid_zero_for_identity_static_witness :
    (IsUnit ((TimeSeries.mk (Arr4.mk 1 1 1 2 (fun _ _ _ _ => 5)) 1 1 1 1 0 [0] false).toworld).det
      ∧ 2 ≤ (TimeSeries.mk (Arr4.mk 1 1 1 2 (fun _ _ _ _ => 5)) 1 1 1 1 0 [0] false).array.d3
      ∧ 0 < (TimeSeries.mk (Arr4.mk 1 1 1 2 (fun _ _ _ _ => 5)) 1 1 1 1 0 [0] false).array.d3)
    ∧ ((((Realign4d.init (fun _ _ _ _ _ => 7) wSt
          (TimeSeries.mk (Arr4.mk 1 1 1 2 (fun _ _ _ _ => 5)) 1 1 1 1 0 [0] false)
          1 ("powell") none).resample_all_inmask).init_motion_detection 0).msid 0).1 = 0 :=
  ⟨⟨by simp, by decide, by decide⟩,
    msid_zero_for_identity_static (fun _ _ _ _ _ => 7) wSt
      (TimeSeries.mk (Arr4.mk 1 1 1 2 (fun _ _ _ _ => 5)) 1 1 1 1 0 [0] false)
      1 ("powell") 0 (by simp) (fun _ _ _ _ _ => rfl) (by decide) (by decide)⟩

/-- C3: for every multi-run input whose within-run corrections return the transform
lists `W` and whose between-run pass on the run-mean synthetic series returns `B`,
the final transform for scan `i` of run `r` is the composition `B_r * W_{r,i}` —
the within-run correction is applied first, then the between-run correction. -/
theorem realign4d_composition (cs : Arr4 → SampleFn) (st : SliceTimeFn)
    (fmin : FminOracle) (fp : List ℚ → M4) (tp : M4 → List ℚ)
    (runs : List TimeSeries) (within_loops between_loops : ℕ) (speedup : ℤ)
    (optimizer : String) (W : List (List M4)) (B : List M4)
    (hlen : 2 ≤ runs.length)
    (hW : runs.mapM (fun run =>
        _realign4d cs st fmin fp tp run within_loops speedup optimizer) = Except.ok W)
    (hB : _realign4d cs st fmin fp tp (realign4d_mean_img cs st runs W)
        between_loops speedup optimizer = Except.ok B) :
    realign4d cs st fmin fp tp runs within_loops between_loops speedup optimizer
      = Except.ok (RealignResult.multi ((List.range runs.length).map (fun r =>
          (W.getD r []).map (fun T => B.getD r 1 * T)))) := by
  unfold realign4d
  rw [hW]
  simp only [bind, Except.bind]
  rw [if_neg (by omega)]
  rw [hB]
  rfl

/-- Witness for C3 on a concrete two-run input with trivial collaborators. -/
theorem realign4d_composition_witness :
    2 ≤ [wTs 0, wTs 1].length
    ∧ [wTs 0, wTs 1].mapM (fun run => _realign4d wCs wSt wFmin wFp wTp run 1 1 ("powell"))
        = Except.ok [[(1 : M4)], [(1 : M4)]]
    ∧ _realign4d wCs wSt wFmin wFp wTp
        (realign4d_mean_img wCs wSt [wTs 0, wTs 1] [[(1 : M4)], [(1 : M4)]]) 1 1 ("powell")
        = Except.ok [(1 : M4), (1 : M4)]
    ∧ realign4d wCs wSt wFmin wFp wTp [wTs 0, wTs 1] 1 1 1 ("powell")
        = Except.ok (RealignResult.multi
            ((List.range [wTs 0, wTs 1].length).map (fun r =>
              (([[(1 : M4)], [(1 : M4)]]).getD r []).map
                (fun T => ([(1 : M4), (1 : M4)]).getD r 1 * T)))) :=
  ⟨by decide, rfl, rfl,
    realign4d_composition wCs wSt wFmin wFp wTp [wTs 0, wTs 1] 1 1 1 ("powell")
      [[(1 : M4)], [(1 : M4)]] [(1 : M4), (1 : M4)] (by decide) rfl rfl⟩

/-- Witness for C1 at a concrete time series, slice 1, grid time 7. -/
theorem fromtime_totime_round_trip_witness :
    ((1 < (TimeSeries.mk default 1 3 2 1 5 [0, 1, 2] true).nslices)
      ∧ (0 < (TimeSeries.mk default 1 3 2 1 5 [0, 1, 2] true).tr))
    ∧ (TimeSeries.mk default 1 3 2 1 5 [0, 1, 2] true).fromtime (fun _ _ _ => 0) (1 : ℕ)
        ((TimeSeries.mk default 1 3 2 1 5 [0, 1, 2] true).totime (fun _ _ _ => 0) (1 : ℕ) 7)
      = 7 :=
  ⟨⟨by decide, by decide⟩,
    fromtime_totime_round_trip (fun _ _ _ => 0)
      (TimeSeries.mk default 1 3 2 1 5 [0, 1, 2] true) 1 7 (by decide) (by decide)⟩
